import Mathlib

/-!
A shallow embedding of the `sethm/raytracer` sources (`vec3.rs`, `ray.rs`,
`hittable.rs`, `camera.rs`, `main.rs`).  Rust `f32` values are modelled as
exact rationals; `f32::sqrt` is modelled by `ratSqrt`, which is exact on
perfect squares; the thread-local random generator is modelled as an explicit
stream `σ : ℕ → ℚ` of uniform draws together with the index of the next
unused draw; the one unbounded loop of the code (`random_in_unit_sphere`)
takes a fuel argument and returns `none` when it has not returned within
`fuel` iterations of its `loop`.
-/

/-- Model of `f32::sqrt` on exact rationals: square root of the numerator
over square root of the denominator, exact whenever the argument is the
square of a rational (in lowest terms both components are then squares). -/
def ratSqrt (q : ℚ) : ℚ :=
  (Int.sqrt q.num : ℚ) / (Nat.sqrt q.den : ℚ)

/-- Model of Rust `as i32` applied to a (finite, in-range) float value:
truncation toward zero. -/
def truncInt (q : ℚ) : ℤ :=
  if 0 ≤ q then ⌊q⌋ else -⌊-q⌋

/-- `vec3.rs`: `pub struct Vec3 { pub e: [f32; 3] }`, with the `e` array
flattened into the three named components returned by `x()`, `y()`, `z()`. -/
@[ext]
structure Vec3 where
  x : ℚ
  y : ℚ
  z : ℚ
deriving DecidableEq, Repr

/-- `vec3.rs`: `impl ops::Add<Vec3> for Vec3` (componentwise sum). -/
instance : Add Vec3 :=
  ⟨fun a b => ⟨a.x + b.x, a.y + b.y, a.z + b.z⟩⟩

/-- `vec3.rs`: `impl ops::Sub<Vec3> for Vec3` (componentwise difference). -/
instance : Sub Vec3 :=
  ⟨fun a b => ⟨a.x - b.x, a.y - b.y, a.z - b.z⟩⟩

/-- Componentwise negation.  `vec3.rs` declares no `ops::Neg` impl even
though `hittable.rs` writes `-hit.normal`; this is the only meaning that
expression can have. -/
instance : Neg Vec3 :=
  ⟨fun a => ⟨-a.x, -a.y, -a.z⟩⟩

/-- `vec3.rs`: `impl ops::Mul for Vec3` (componentwise product). -/
instance : Mul Vec3 :=
  ⟨fun a b => ⟨a.x * b.x, a.y * b.y, a.z * b.z⟩⟩

/-- `vec3.rs`: `impl ops::Mul<Vec3> for f32` (scalar times vector). -/
instance : HMul ℚ Vec3 Vec3 :=
  ⟨fun t v => ⟨t * v.x, t * v.y, t * v.z⟩⟩

/-- `vec3.rs`: `impl ops::Mul<f32> for Vec3` (vector times scalar; the code
multiplies as `t * component`). -/
instance : HMul Vec3 ℚ Vec3 :=
  ⟨fun v t => ⟨t * v.x, t * v.y, t * v.z⟩⟩

/-- `vec3.rs`: `impl ops::Div<f32> for Vec3` (componentwise by a scalar). -/
instance : HDiv Vec3 ℚ Vec3 :=
  ⟨fun v t => ⟨v.x / t, v.y / t, v.z / t⟩⟩

/-- `vec3.rs` lines 152-160: `impl ops::Div<Vec3> for Vec3`.  The source
body is `Vec3::new(rhs.x() / self.x(), rhs.y() / self.y(), rhs.z() / self.z())`,
so `a / b` divides the components of `b` by those of `a`. -/
instance : HDiv Vec3 Vec3 Vec3 :=
  ⟨fun a b => ⟨b.x / a.x, b.y / a.y, b.z / a.z⟩⟩

/-- `vec3.rs`: `impl ops::DivAssign<Vec3> for Vec3`; `a /= v` divides each
component of `a` by the matching component of `v`, returned here as the new
value of `a`. -/
def Vec3.divAssign (a v : Vec3) : Vec3 :=
  ⟨a.x / v.x, a.y / v.y, a.z / v.z⟩

/-- `vec3.rs`: `Vec3::dot`. -/
def Vec3.dot (v1 v2 : Vec3) : ℚ :=
  v1.x * v2.x + v1.y * v2.y + v1.z * v2.z

/-- `vec3.rs`: `Vec3::squared_length`. -/
def Vec3.squared_length (v : Vec3) : ℚ :=
  v.x * v.x + v.y * v.y + v.z * v.z

/-- `vec3.rs`: `Vec3::length`. -/
def Vec3.length (v : Vec3) : ℚ :=
  ratSqrt (v.x * v.x + v.y * v.y + v.z * v.z)

/-- `vec3.rs`: `Vec3::unit_vector`, `v / v.length()`. -/
def Vec3.unit_vector (v : Vec3) : Vec3 :=
  v / v.length

/-- `vec3.rs`: `Vec3::reflect`, `*v - 2.0 * Vec3::dot(v, n) * n`. -/
def Vec3.reflect (v n : Vec3) : Vec3 :=
  v - (2 * Vec3.dot v n) * n

/-- `ray.rs`: `pub struct Ray { a: Vec3, b: Vec3 }`. -/
structure Ray where
  a : Vec3
  b : Vec3
deriving DecidableEq, Repr

/-- `ray.rs`: `Ray::origin`. -/
def Ray.origin (r : Ray) : Vec3 :=
  r.a

/-- `ray.rs`: `Ray::direction`. -/
def Ray.direction (r : Ray) : Vec3 :=
  r.b

/-- `ray.rs`: `Ray::point_at_parameter`, `self.a + t * self.b`. -/
def Ray.point_at_parameter (r : Ray) (t : ℚ) : Vec3 :=
  r.a + t * r.b

/-- `main.rs`: `const NY: u32 = 480` (image height in rows). -/
def NY : ℕ := 480

/-- `main.rs`: `const NUM_THREADS: u32 = 6`. -/
def NUM_THREADS : ℕ := 6

/-- `main.rs` line 186: `let lines_per_block = NY / NUM_THREADS;` with `u32`
division, generalised over the height and the thread count. -/
def linesPerBlock (ny numThreads : ℕ) : ℕ :=
  ny / numThreads

/-- `main.rs` lines 187-194: worker `tn` renders the rows
`start_line..end_line` where `start_line = tn * lines_per_block` and
`end_line = (tn + 1) * lines_per_block`. -/
def blockLines (ny numThreads tn : ℕ) : List ℕ :=
  List.range' (tn * linesPerBlock ny numThreads) (linesPerBlock ny numThreads)

/-- `main.rs` lines 182-195: the multiset of row indices rendered and sent
to the consumer across all `numThreads` workers (listed worker by worker;
workers interleave in time but each row is sent by the worker that owns its
block). -/
def renderedLines (ny numThreads : ℕ) : List ℕ :=
  (List.range numThreads).flatMap (blockLines ny numThreads)

/-- Rust `expr as u8` applied to a (non-NaN) float: truncation toward zero
saturating at the bounds `0` and `255`. -/
def f32ToU8 (q : ℚ) : ℕ :=
  if q < 0 then 0 else min 255 (⌊q⌋.toNat)

/-- `main.rs` `render_line` lines 105-107: `(255.99 * col.r()) as u8` for a
gamma-corrected channel value `c`. -/
def quantizeChannel (c : ℚ) : ℕ :=
  f32ToU8 ((25599 / 100 : ℚ) * c)

/-- `hittable.rs`: the three `Material` implementors `Lambertian`, `Metal`
and `Dialectric` as a closed sum. -/
inductive Material where
  | lambertian (albedo : Vec3)
  | metal (albedo : Vec3)
  | dialectric (ref_idx : ℚ)
deriving DecidableEq, Repr

/-- `hittable.rs`: `pub struct Reflection`. -/
structure Reflection where
  scattered : Ray
  attenuation : Vec3
  reflected : Bool
deriving DecidableEq, Repr

/-- `hittable.rs`: `pub struct Hit`.  The source field `object: &'a Hittable`
is a non-owning reference used only to fetch the object's material
(`h.object.material()`), so the embedding stores that material directly. -/
structure Hit where
  t : ℚ
  p : Vec3
  normal : Vec3
  material : Material
deriving DecidableEq, Repr

/-- The `loop` body of `hittable.rs::random_in_unit_sphere`: return the
candidate as soon as its squared length is `>= 1.0`, otherwise overwrite
each component with a fresh `rng.gen()` draw (components in `[0,1)`, with
no `2·u − 1` mapping) and try again.  `fuel` bounds how many loop
iterations the embedding is willing to unfold; `none` means the loop has
not returned within `fuel` iterations. -/
def riusLoop (σ : ℕ → ℚ) : Vec3 → ℕ → ℕ → Option (Vec3 × ℕ)
  | _, _, 0 => none
  | v, k, fuel + 1 =>
    if 1 ≤ v.squared_length then some (v, k)
    else riusLoop σ ⟨σ k, σ (k + 1), σ (k + 2)⟩ (k + 3) fuel

/-- `hittable.rs` lines 25-38: `random_in_unit_sphere`.  The first candidate
is `2.0 * Vec3::new(rng.gen(), rng.gen(), rng.gen())` (components in
`[0,2)`), after which the loop runs.  Returns the drawn vector and the index
of the next unused random draw. -/
def random_in_unit_sphere (σ : ℕ → ℚ) (k : ℕ) (fuel : ℕ) : Option (Vec3 × ℕ) :=
  riusLoop σ ((2 : ℚ) * Vec3.mk (σ k) (σ (k + 1)) (σ (k + 2))) (k + 3) fuel

/-- `hittable.rs` lines 123-134: `refract` (the `Refraction` wrapper struct
is flattened into the vector it carries). -/
def refract (v n : Vec3) (ni_over_nt : ℚ) : Option Vec3 :=
  let uv := Vec3.unit_vector v
  let dt := Vec3.dot uv n
  let discriminant := 1 - ni_over_nt * ni_over_nt * (1 - dt * dt)
  if 0 < discriminant then
    some (ni_over_nt * (uv - dt * n) - ratSqrt discriminant * n)
  else
    none

/-- `hittable.rs` lines 136-140: `schlick`.  The source computes the
fifth power of `(1.0 - cosine) as i32`, that is of the value of
`1 - cosine` truncated to an integer, cast back to a float for the final
product. -/
def schlick (cosine ref_idx : ℚ) : ℚ :=
  let r0 := (1 - ref_idx) / (1 + ref_idx)
  let r1 := r0 * r0
  r1 + (1 - r1) * ((truncInt (1 - cosine) ^ 5 : ℤ) : ℚ)

/-- Schlick's approximation as the spec states it, for comparison with the
source's `schlick`: `r0 + (1 − r0)·(1 − cosine)^5` with
`r0 = ((1 − n)/(1 + n))²`. -/
def schlickSpec (cosine ref_idx : ℚ) : ℚ :=
  let r0 := ((1 - ref_idx) / (1 + ref_idx)) ^ 2
  r0 + (1 - r0) * (1 - cosine) ^ 5

/-- `hittable.rs`: the three `Material::scatter` bodies (lines 85-99,
101-117 and 143-197), dispatched over the material kind.  The random
stream/index pair stands for the implicit `thread_rng()`; the result also
returns the index of the next unused draw. -/
def Material.scatter (m : Material) (r_in : Ray) (h : Hit) (σ : ℕ → ℚ)
    (k : ℕ) (fuel : ℕ) : Option (Reflection × ℕ) :=
  match m with
  | .lambertian albedo =>
    match random_in_unit_sphere σ k fuel with
    | none => none
    | some (u, k') =>
      let target := h.p + h.normal + u
      some ({ scattered := Ray.mk h.p (target - h.p)
              attenuation := albedo
              reflected := true }, k')
  | .metal albedo =>
    let reflected := Vec3.reflect (Vec3.unit_vector r_in.direction) h.normal
    let scattered := Ray.mk h.p reflected
    some ({ scattered := scattered
            attenuation := albedo
            reflected := decide (0 < Vec3.dot scattered.direction h.normal) }, k)
  | .dialectric ref_idx =>
    let reflected := Vec3.reflect r_in.direction h.normal
    let outward_normal :=
      if 0 < Vec3.dot r_in.direction h.normal then -h.normal else h.normal
    let ni_over_nt :=
      if 0 < Vec3.dot r_in.direction h.normal then ref_idx else 1 / ref_idx
    let cosine :=
      if 0 < Vec3.dot r_in.direction h.normal then
        ref_idx * Vec3.dot r_in.direction h.normal / r_in.direction.length
      else
        -Vec3.dot r_in.direction h.normal / r_in.direction.length
    let refraction := refract r_in.direction outward_normal ni_over_nt
    let reflect_prob :=
      match refraction with
      | some _ => schlick cosine ref_idx
      | none => 1
    let refracted :=
      match refraction with
      | some rr => rr
      | none => Vec3.mk 0 0 0
    let scattered :=
      if σ k < reflect_prob then Ray.mk h.p reflected else Ray.mk h.p refracted
    some ({ scattered := scattered
            attenuation := Vec3.mk 1 1 1
            reflected := true }, k + 1)

/-- `hittable.rs`: `pub struct Sphere` (the boxed material inlined). -/
structure Sphere where
  center : Vec3
  radius : ℚ
  material : Material
deriving DecidableEq, Repr

/-- The discriminant `b*b - a*c` that `Sphere::hit` computes from a ray. -/
def Sphere.discr (s : Sphere) (r : Ray) : ℚ :=
  let oc := r.origin - s.center
  let a := Vec3.dot r.direction r.direction
  let b := Vec3.dot oc r.direction
  let c := Vec3.dot oc oc - s.radius * s.radius
  b * b - a * c

/-- The smaller quadratic root `(-b - sqrt(b*b - a*c)) / a` that
`Sphere::hit` tests (the only root it ever tests). -/
def Sphere.rootT (s : Sphere) (r : Ray) : ℚ :=
  let oc := r.origin - s.center
  let a := Vec3.dot r.direction r.direction
  let b := Vec3.dot oc r.direction
  let c := Vec3.dot oc oc - s.radius * s.radius
  (-b - ratSqrt (b * b - a * c)) / a

/-- The `Hit` record that `Sphere::hit` builds when it accepts the smaller
root. -/
def Sphere.mkHit (s : Sphere) (r : Ray) : Hit :=
  let t := Sphere.rootT s r
  let p := r.point_at_parameter t
  { t := t, p := p, normal := (p - s.center) / s.radius, material := s.material }

/-- The acceptance condition of `Sphere::hit`: positive discriminant and the
smaller root strictly inside `(t_min, t_max)`. -/
def Sphere.validHit (s : Sphere) (r : Ray) (t_min t_max : ℚ) : Prop :=
  0 < Sphere.discr s r ∧ t_min < Sphere.rootT s r ∧ Sphere.rootT s r < t_max

instance (s : Sphere) (r : Ray) (t_min t_max : ℚ) :
    Decidable (Sphere.validHit s r t_min t_max) := by
  unfold Sphere.validHit
  exact inferInstance

/-- `hittable.rs` lines 234-250: `Sphere::hit`. -/
def Sphere.hit (s : Sphere) (r : Ray) (t_min t_max : ℚ) : Option Hit :=
  let oc := r.origin - s.center
  let a := Vec3.dot r.direction r.direction
  let b := Vec3.dot oc r.direction
  let c := Vec3.dot oc oc - s.radius * s.radius
  let discriminant := b * b - a * c
  if 0 < discriminant then
    let tmp := (-b - ratSqrt (b * b - a * c)) / a
    if tmp < t_max ∧ t_min < tmp then
      let p := r.point_at_parameter tmp
      some { t := tmp, p := p, normal := (p - s.center) / s.radius,
             material := s.material }
    else
      none
  else
    none

/-- `hittable.rs`: `pub struct World` (its `Box<Hittable>` members are all
spheres, the one `Hittable` implementor). -/
structure World where
  objects : List Sphere

/-- One iteration of the `for object in &self.objects` loop of `World::hit`:
the state is the `hits` vector and `closest_so_far`. -/
def World.step (r : Ray) (t_min : ℚ) (st : List Hit × ℚ) (o : Sphere) :
    List Hit × ℚ :=
  match Sphere.hit o r t_min st.2 with
  | some h => (st.1 ++ [h], h.t)
  | none => st

/-- `hittable.rs` lines 270-288: `World::hit`; `closest_so_far` starts at
`t_max`, every accepted hit shrinks it, and `hits.pop()` hands back the
last accepted hit. -/
def World.hit (w : World) (r : Ray) (t_min t_max : ℚ) : Option Hit :=
  (w.objects.foldl (World.step r t_min) ([], t_max)).1.getLast?

/-- The largest finite `f32`, `f32::MAX = (2 - 2⁻²³)·2¹²⁷`, which `color`
passes as the upper bound of the hit range. -/
def f32MAX : ℚ :=
  2 ^ 128 - 2 ^ 104

/-- `main.rs` lines 50-69: the recursive radiance estimator `color`.
`none` means a diffuse bounce's rejection-sampling loop failed to return
within the fuel. -/
def color (w : World) (σ : ℕ → ℚ) (fuel : ℕ) (r : Ray) (depth : ℤ) (k : ℕ) :
    Option Vec3 :=
  match World.hit w r (1 / 1000) f32MAX with
  | some h =>
    match Material.scatter h.material r h σ k fuel with
    | none => none
    | some (sc, k') =>
      if hd : depth < 50 ∧ sc.reflected = true then
        Option.map (fun c => sc.attenuation * c)
          (color w σ fuel sc.scattered (depth + 1) k')
      else
        some (Vec3.mk 0 0 0)
  | none =>
    let unit_direction := Vec3.unit_vector r.direction
    let t := (1 / 2 : ℚ) * (unit_direction.y + 1)
    some ((1 - t) * Vec3.mk 1 1 1 + t * Vec3.mk (1 / 2) (7 / 10) 1)
termination_by (50 - depth).toNat
decreasing_by
  obtain ⟨h1, -⟩ := hd
  omega

/-- A sphere of radius 1 about `(0,0,-3)`: the farther of two overlapping
test spheres on the negative z axis. -/
def sphereA : Sphere :=
  ⟨Vec3.mk 0 0 (-3), 1, Material.lambertian (Vec3.mk 1 0 0)⟩

/-- A sphere of radius 1 about `(0,0,-2)`: the nearer of two overlapping
test spheres on the negative z axis. -/
def sphereB : Sphere :=
  ⟨Vec3.mk 0 0 (-2), 1, Material.metal (Vec3.mk 0 1 0)⟩

/-- A test ray from the origin straight down the negative z axis. -/
def rayAxis : Ray :=
  ⟨Vec3.mk 0 0 0, Vec3.mk 0 0 (-1)⟩

/-- A test hit whose unit normal is `(0,0,1)`, met by a ray travelling in
direction `(0,0,1)`: the reflected direction is then `(0,0,-1)`,
anti-parallel to the normal. -/
def hitUp : Hit :=
  ⟨1, Vec3.mk 0 0 0, Vec3.mk 0 0 1, Material.metal (Vec3.mk 1 1 1)⟩

@[simp]
theorem Vec3.add_x (a b : Vec3) : (a + b).x = a.x + b.x := rfl

@[simp]
theorem Vec3.add_y (a b : Vec3) : (a + b).y = a.y + b.y := rfl

@[simp]
theorem Vec3.add_z (a b : Vec3) : (a + b).z = a.z + b.z := rfl

@[simp]
theorem Vec3.sub_x (a b : Vec3) : (a - b).x = a.x - b.x := rfl

@[simp]
theorem Vec3.sub_y (a b : Vec3) : (a - b).y = a.y - b.y := rfl

@[simp]
theorem Vec3.sub_z (a b : Vec3) : (a - b).z = a.z - b.z := rfl

@[simp]
theorem Vec3.neg_x (a : Vec3) : (-a).x = -a.x := rfl

@[simp]
theorem Vec3.neg_y (a : Vec3) : (-a).y = -a.y := rfl

@[simp]
theorem Vec3.neg_z (a : Vec3) : (-a).z = -a.z := rfl

@[simp]
theorem Vec3.mulv_x (a b : Vec3) : (a * b).x = a.x * b.x := rfl

@[simp]
theorem Vec3.mulv_y (a b : Vec3) : (a * b).y = a.y * b.y := rfl

@[simp]
theorem Vec3.mulv_z (a b : Vec3) : (a * b).z = a.z * b.z := rfl

@[simp]
theorem Vec3.smul_x (t : ℚ) (v : Vec3) : (t * v).x = t * v.x := rfl

@[simp]
theorem Vec3.smul_y (t : ℚ) (v : Vec3) : (t * v).y = t * v.y := rfl

@[simp]
theorem Vec3.smul_z (t : ℚ) (v : Vec3) : (t * v).z = t * v.z := rfl

@[simp]
theorem Vec3.muls_x (v : Vec3) (t : ℚ) : (v * t).x = t * v.x := rfl

@[simp]
theorem Vec3.muls_y (v : Vec3) (t : ℚ) : (v * t).y = t * v.y := rfl

@[simp]
theorem Vec3.muls_z (v : Vec3) (t : ℚ) : (v * t).z = t * v.z := rfl

@[simp]
theorem Vec3.divs_x (v : Vec3) (t : ℚ) : (v / t).x = v.x / t := rfl

@[simp]
theorem Vec3.divs_y (v : Vec3) (t : ℚ) : (v / t).y = v.y / t := rfl

@[simp]
theorem Vec3.divs_z (v : Vec3) (t : ℚ) : (v / t).z = v.z / t := rfl

@[simp]
theorem Vec3.vdiv_x (a b : Vec3) : (a / b).x = b.x / a.x := rfl

@[simp]
theorem Vec3.vdiv_y (a b : Vec3) : (a / b).y = b.y / a.y := rfl

@[simp]
theorem Vec3.vdiv_z (a b : Vec3) : (a / b).z = b.z / a.z := rfl

theorem flatMap_blocks (L : ℕ) :
    ∀ n : ℕ,
      (List.range n).flatMap (fun t => List.range' (t * L) L) =
        List.range (n * L) := by
  intro n
  induction n with
  | zero => simp
  | succ m ih =>
    rw [List.range_succ, List.flatMap_append, ih]
    have happ := List.range'_append 0 (m * L) L 1
    simp only [List.flatMap_cons, List.flatMap_nil, List.append_nil,
      List.range_eq_range']
    simpa [Nat.succ_mul, Nat.add_comm, Nat.one_mul] using happ

/-- C1 (amended).  The scheduler of `main.rs` cuts the rows into
`numThreads` contiguous blocks of exactly `ny / numThreads` rows each
starting at row 0; together the workers render the rows
`[0, numThreads * (ny / numThreads))`, each exactly once — the remainder
rows `ny % numThreads ≠ 0` are assigned to no worker at all.  With the
program's constants (`NY = 480`, `NUM_THREADS = 6`) the division is exact
and every row of `[0, NY)` is rendered exactly once. -/
theorem rendered_rows_partition :
    (∀ ny nt : ℕ,
        renderedLines ny nt = List.range (nt * (ny / nt)) ∧
          (renderedLines ny nt).Nodup) ∧
      renderedLines NY NUM_THREADS = List.range NY := by
  have key : ∀ ny nt : ℕ, renderedLines ny nt = List.range (nt * (ny / nt)) := by
    intro ny nt
    have h := flatMap_blocks (ny / nt) nt
    simpa [renderedLines, blockLines, linesPerBlock] using h
  refine ⟨fun ny nt => ⟨key ny nt, ?_⟩, ?_⟩
  · rw [key ny nt]
    exact List.nodup_range _
  · rw [key NY NUM_THREADS]
    norm_num [NY, NUM_THREADS]

/-- C1 (counterexample).  For height 7 and two threads, row 6 is in
`[0, 7)` but is rendered by no worker: the remainder row is dropped, not
given to the last block, so the union of rendered rows is not the full
row range. -/
theorem rendered_rows_miss_row_six :
    6 ∈ List.range 7 ∧ 6 ∉ renderedLines 7 2 ∧
      renderedLines 7 2 ≠ List.range 7 := by
  decide

/-- C9.  The byte quantization of `render_line` never wraps around: Rust's
saturating float-to-`u8` cast sends a gamma-corrected channel `c ≤ 1` to
`floor(255.99 · c)` and any larger channel to 255, so an unclamped radiance
sum above 1.0 yields 255, never a small wrapped byte. -/
theorem quantize_no_wraparound (c : ℚ) (hc : 0 ≤ c) :
    quantizeChannel c ≤ 255 ∧
      (c ≤ 1 → quantizeChannel c = (⌊(25599 / 100 : ℚ) * c⌋).toNat) ∧
      (1 < c → quantizeChannel c = 255) := by
  have hx0 : (0 : ℚ) ≤ (25599 / 100 : ℚ) * c := by positivity
  unfold quantizeChannel f32ToU8
  rw [if_neg (not_lt.mpr hx0)]
  refine ⟨Nat.min_le_left _ _, ?_, ?_⟩
  · intro h1
    have hle : (25599 / 100 : ℚ) * c ≤ 25599 / 100 := by nlinarith
    have hmono : ⌊(25599 / 100 : ℚ) * c⌋ ≤ ⌊(25599 / 100 : ℚ)⌋ :=
      Int.floor_le_floor hle
    have h255 : ⌊(25599 / 100 : ℚ)⌋ = 255 := by norm_num
    omega
  · intro h1
    have hge : ((255 : ℤ) : ℚ) ≤ (25599 / 100 : ℚ) * c := by
      push_cast
      nlinarith
    have hfl : (255 : ℤ) ≤ ⌊(25599 / 100 : ℚ) * c⌋ := Int.le_floor.mpr hge
    omega

/-- C9 (witness): the theorem evaluated at the out-of-range channel value
`3/2`, where the cast saturates at 255. -/
theorem quantize_no_wraparound_witness :
    quantizeChannel (3 / 2) ≤ 255 ∧
      ((3 / 2 : ℚ) ≤ 1 →
        quantizeChannel (3 / 2) = (⌊(25599 / 100 : ℚ) * (3 / 2)⌋).toNat) ∧
      ((1 : ℚ) < 3 / 2 → quantizeChannel (3 / 2) = 255) :=
  quantize_no_wraparound (3 / 2) (by norm_num)

/-- C4.  The source's `schlick` truncates `1 - cosine` to an integer
(`as i32`) before raising it to the fifth power: at `cosine = 1/2`,
`ref_idx = 2` it returns bare `r0 = 1/9`, while the claimed formula
`r0 + (1 − r0)·(1 − cosine)^5` gives `5/36`. -/
theorem schlick_truncates_cosine :
    schlick (1 / 2) 2 = 1 / 9 ∧ schlickSpec (1 / 2) 2 = 5 / 36 ∧
      schlick (1 / 2) 2 ≠ schlickSpec (1 / 2) 2 := by
  have ht : truncInt (1 - (1 / 2 : ℚ)) = 0 := by
    unfold truncInt
    rw [if_pos (by norm_num)]
    norm_num
  have h1 : schlick (1 / 2) 2 = 1 / 9 := by
    unfold schlick
    rw [ht]
    norm_num
  have h2 : schlickSpec (1 / 2) 2 = 5 / 36 := by
    unfold schlickSpec
    norm_num
  exact ⟨h1, h2, by rw [h1, h2]; norm_num⟩

/-- C3.  On the uniform random stream `0.9`, the unit-ball draw returns its
very first candidate `2·(0.9, 0.9, 0.9) = (1.8, 1.8, 1.8)`: a vector whose
squared length `243/25` is `≥ 1` and whose components exceed 1 — the loop
keeps a candidate exactly when its squared length is at least 1, the
reverse of the claimed rejection test, and maps the draws by `2·u`, not
`2·u − 1`. -/
theorem random_in_unit_sphere_outside_ball :
    random_in_unit_sphere (fun _ => (9 / 10 : ℚ)) 0 1 =
        some (Vec3.mk (9 / 5) (9 / 5) (9 / 5), 3) ∧
      Vec3.squared_length (Vec3.mk (9 / 5) (9 / 5) (9 / 5)) = 243 / 25 ∧
      ¬ Vec3.squared_length (Vec3.mk (9 / 5) (9 / 5) (9 / 5)) < 1 ∧
      ¬ (Vec3.mk (9 / 5) (9 / 5) (9 / 5)).x < 1 := by
  refine ⟨?_, by norm_num [Vec3.squared_length], by norm_num [Vec3.squared_length],
    by norm_num⟩
  unfold random_in_unit_sphere
  have h2 : (2 : ℚ) * Vec3.mk (9 / 10 : ℚ) (9 / 10) (9 / 10) =
      Vec3.mk (9 / 5) (9 / 5) (9 / 5) := by
    ext <;> norm_num
  simp only []
  rw [h2, show (1 : ℕ) = 0 + 1 from rfl, riusLoop]
  rw [if_pos (by norm_num [Vec3.squared_length])]

theorem rius_zero_loop (fuel : ℕ) :
    ∀ k : ℕ, riusLoop (fun _ => (0 : ℚ)) (Vec3.mk 0 0 0) k fuel = none := by
  induction fuel with
  | zero => intro k; rfl
  | succ n ih =>
    intro k
    rw [riusLoop]
    rw [if_neg (by norm_num [Vec3.squared_length])]
    exact ih (k + 3)

theorem rius_zero_stream (fuel k : ℕ) :
    random_in_unit_sphere (fun _ => (0 : ℚ)) k fuel = none := by
  unfold random_in_unit_sphere
  rw [show (2 : ℚ) * Vec3.mk ((fun _ => (0 : ℚ)) k) ((fun _ => (0 : ℚ)) (k + 1))
        ((fun _ => (0 : ℚ)) (k + 2)) = Vec3.mk 0 0 0 from by ext <;> norm_num]
  exact rius_zero_loop fuel (k + 3)

/-- C8 (amended).  The rejection-sampling loop of `random_in_unit_sphere`
has no iteration cap and no internal-invariant error: it returns the first
candidate whose squared length is at least 1, and on a random stream that
never produces one — such as the all-zeros stream — it never returns, for
any number of iterations. -/
theorem random_in_unit_sphere_unbounded (fuel k : ℕ) :
    random_in_unit_sphere (fun _ => (0 : ℚ)) k fuel = none :=
  rius_zero_stream fuel k

/-- C8 (counterexample).  There is no iteration cap within which the
unit-ball draw returns on every random stream: on the all-zeros stream it
returns within no bound at all. -/
theorem random_in_unit_sphere_no_cap :
    ¬ ∃ cap : ℕ,
        (random_in_unit_sphere (fun _ => (0 : ℚ)) 0 cap).isSome = true := by
  rintro ⟨cap, hc⟩
  rw [rius_zero_stream cap 0] at hc
  simp at hc

/-- C10.  `impl ops::Div<Vec3> for Vec3` swaps its operands: `a / b`
returns `(b.x/a.x, b.y/a.y, b.z/a.z)`, not the claimed componentwise
quotient `(a.x/b.x, a.y/b.y, a.z/b.z)` — which is what the crate's own
`DivAssign<Vec3>` (`a /= b`) computes. -/
theorem vec3_div_swaps_operands :
    Vec3.mk 1 2 4 / Vec3.mk 2 2 2 = Vec3.mk 2 1 (1 / 2) ∧
      Vec3.divAssign (Vec3.mk 1 2 4) (Vec3.mk 2 2 2) = Vec3.mk (1 / 2) 1 2 ∧
      Vec3.mk 1 2 4 / Vec3.mk 2 2 2 ≠ Vec3.mk (1 / 2) 1 2 := by
  refine ⟨by ext <;> norm_num, by unfold Vec3.divAssign; ext <;> norm_num, ?_⟩
  intro h
  have hx := congrArg Vec3.x h
  simp only [Vec3.vdiv_x] at hx
  norm_num at hx

theorem ratSqrt_one : ratSqrt 1 = 1 := by
  rw [ratSqrt, Rat.num_one, Rat.den_one]
  norm_num [Int.sqrt, Nat.sqrt_one]

theorem Sphere.hit_eq (s : Sphere) (r : Ray) (t_min t_max : ℚ) :
    Sphere.hit s r t_min t_max =
      if Sphere.validHit s r t_min t_max then some (Sphere.mkHit s r)
      else none := by
  simp only [Sphere.hit, Sphere.validHit, Sphere.mkHit, Sphere.rootT,
    Sphere.discr]
  split_ifs <;> first | rfl | tauto

theorem Sphere.mkHit_t (s : Sphere) (r : Ray) :
    (Sphere.mkHit s r).t = Sphere.rootT s r :=
  rfl

/-- C5.  `Sphere::hit` accepts exactly the smaller quadratic root
`(-b - sqrt(b² - a·c))/a`, and only when the discriminant is strictly
positive (a tangent, discriminant `= 0`, is a miss) and the root lies
strictly inside `(t_min, t_max)`; the larger root is never consulted, so
any other configuration is a miss. -/
theorem sphere_hit_smaller_root_policy (s : Sphere) (r : Ray)
    (t_min t_max : ℚ) :
    (Sphere.hit s r t_min t_max =
        if 0 < Sphere.discr s r ∧ t_min < Sphere.rootT s r ∧
            Sphere.rootT s r < t_max
        then some (Sphere.mkHit s r)
        else none) ∧
      (Sphere.discr s r ≤ 0 → Sphere.hit s r t_min t_max = none) := by
  have h := Sphere.hit_eq s r t_min t_max
  constructor
  · simpa [Sphere.validHit] using h
  · intro hle
    rw [h, if_neg]
    intro hv
    exact absurd hv.1 (not_lt.mpr hle)

/-- C7.  `Metal::scatter` reflects the normalized incoming direction about
the hit normal with `reflect(v,n) = v - 2·dot(v,n)·n`, hands back the
material's albedo as attenuation, and continues exactly when the reflected
direction makes a positive dot product with the normal; in particular a
reflected direction anti-parallel to the normal (the `hitUp` example) is
absorbed. -/
theorem metal_scatter_spec :
    (∀ (albedo : Vec3) (r_in : Ray) (h : Hit) (σ : ℕ → ℚ) (k fuel : ℕ),
        Material.scatter (Material.metal albedo) r_in h σ k fuel =
          some
            ({ scattered :=
                Ray.mk h.p
                  (Vec3.unit_vector r_in.direction -
                    (2 * Vec3.dot (Vec3.unit_vector r_in.direction) h.normal) *
                      h.normal)
               attenuation := albedo
               reflected :=
                decide
                  (0 <
                    Vec3.dot
                      (Vec3.unit_vector r_in.direction -
                        (2 * Vec3.dot (Vec3.unit_vector r_in.direction) h.normal) *
                          h.normal)
                      h.normal) }, k)) ∧
      (Material.scatter (Material.metal (Vec3.mk 1 1 1))
            (Ray.mk (Vec3.mk 0 0 0) (Vec3.mk 0 0 1)) hitUp (fun _ => 0) 0
            0).map
          (fun pr => pr.1.reflected) =
        some false := by
  constructor
  · intro albedo r_in h σ k fuel
    rfl
  · have huv : Vec3.unit_vector (Vec3.mk (0 : ℚ) 0 1) = Vec3.mk 0 0 1 := by
      unfold Vec3.unit_vector Vec3.length
      ext <;> norm_num [ratSqrt_one]
    simp only [Material.scatter, hitUp, Ray.direction, huv]
    simp only [Option.map_some', Option.some.injEq]
    rw [decide_eq_false_iff_not]
    norm_num [Vec3.reflect, Vec3.dot]

theorem foldl_step_no_hit (r : Ray) (t_min : ℚ) :
    ∀ (objs : List Sphere) (st : List Hit × ℚ),
      (∀ s ∈ objs, ¬ Sphere.validHit s r t_min st.2) →
      List.foldl (World.step r t_min) st objs = st := by
  intro objs
  induction objs with
  | nil => intro st _; rfl
  | cons s rest ih =>
    intro st hno
    rw [List.foldl_cons]
    have hstep : World.step r t_min st s = st := by
      unfold World.step
      rw [Sphere.hit_eq, if_neg (hno s (List.mem_cons_self s rest))]
    rw [hstep]
    exact ih st fun s' hs' => hno s' (List.mem_cons_of_mem s hs')

theorem foldl_step_found (r : Ray) (t_min : ℚ) :
    ∀ (objs : List Sphere) (hits : List Hit) (c : ℚ),
      (∃ s ∈ objs, Sphere.validHit s r t_min c) →
      ∃ s0 ∈ objs,
        Sphere.validHit s0 r t_min c ∧
          (List.foldl (World.step r t_min) (hits, c) objs).1.getLast? =
            some (Sphere.mkHit s0 r) ∧
          (List.foldl (World.step r t_min) (hits, c) objs).2 =
            Sphere.rootT s0 r ∧
          ∀ s ∈ objs, Sphere.validHit s r t_min c →
            Sphere.rootT s0 r ≤ Sphere.rootT s r := by
  intro objs
  induction objs with
  | nil =>
    rintro hits c ⟨s, hs, -⟩
    exact absurd hs (List.not_mem_nil s)
  | cons s rest ih =>
    intro hits c hex
    by_cases hs : Sphere.validHit s r t_min c
    · have hstep : World.step r t_min (hits, c) s =
          (hits ++ [Sphere.mkHit s r], Sphere.rootT s r) := by
        unfold World.step
        rw [Sphere.hit_eq, if_pos hs]
        rfl
      rw [List.foldl_cons, hstep]
      by_cases hrest :
          ∃ s' ∈ rest, Sphere.validHit s' r t_min (Sphere.rootT s r)
      · obtain ⟨s0, hs0mem, hs0v, hlast, hsnd, hmin⟩ :=
          ih (hits ++ [Sphere.mkHit s r]) (Sphere.rootT s r) hrest
        refine ⟨s0, List.mem_cons_of_mem s hs0mem,
          ⟨hs0v.1, hs0v.2.1, lt_trans hs0v.2.2 hs.2.2⟩, hlast, hsnd, ?_⟩
        intro s' hs' hv'
        rcases List.mem_cons.mp hs' with h1 | h1
        · subst h1
          exact le_of_lt hs0v.2.2
        · by_cases hvv : Sphere.validHit s' r t_min (Sphere.rootT s r)
          · exact hmin s' h1 hvv
          · have h2 : ¬ Sphere.rootT s' r < Sphere.rootT s r := fun hlt =>
              hvv ⟨hv'.1, hv'.2.1, hlt⟩
            exact le_trans (le_of_lt hs0v.2.2) (not_lt.mp h2)
      · push_neg at hrest
        rw [foldl_step_no_hit r t_min rest
          (hits ++ [Sphere.mkHit s r], Sphere.rootT s r) hrest]
        refine ⟨s, List.mem_cons_self s rest, hs, List.getLast?_concat _,
          rfl, ?_⟩
        intro s' hs' hv'
        rcases List.mem_cons.mp hs' with h1 | h1
        · subst h1
          exact le_refl _
        · have h2 : ¬ Sphere.rootT s' r < Sphere.rootT s r := fun hlt =>
            hrest s' h1 ⟨hv'.1, hv'.2.1, hlt⟩
          exact not_lt.mp h2
    · have hstep : World.step r t_min (hits, c) s = (hits, c) := by
        unfold World.step
        rw [Sphere.hit_eq, if_neg hs]
      rw [List.foldl_cons, hstep]
      have hex' : ∃ s' ∈ rest, Sphere.validHit s' r t_min c := by
        obtain ⟨s', hs', hv'⟩ := hex
        rcases List.mem_cons.mp hs' with h1 | h1
        · subst h1
          exact absurd hv' hs
        · exact ⟨s', h1, hv'⟩
      obtain ⟨s0, hs0mem, hs0v, hlast, hsnd, hmin⟩ := ih hits c hex'
      refine ⟨s0, List.mem_cons_of_mem s hs0mem, hs0v, hlast, hsnd, ?_⟩
      intro s' hs' hv'
      rcases List.mem_cons.mp hs' with h1 | h1
      · subst h1
        exact absurd hv' hs
      · exact hmin s' h1 hv'

theorem sphereA_discr : Sphere.discr sphereA rayAxis = 1 := by
  norm_num [Sphere.discr, sphereA, rayAxis, Ray.origin, Ray.direction,
    Vec3.dot]

theorem sphereA_rootT : Sphere.rootT sphereA rayAxis = 2 := by
  norm_num [Sphere.rootT, sphereA, rayAxis, Ray.origin, Ray.direction,
    Vec3.dot, ratSqrt_one]

theorem sphereB_discr : Sphere.discr sphereB rayAxis = 1 := by
  norm_num [Sphere.discr, sphereB, rayAxis, Ray.origin, Ray.direction,
    Vec3.dot]

theorem sphereB_rootT : Sphere.rootT sphereB rayAxis = 1 := by
  norm_num [Sphere.rootT, sphereB, rayAxis, Ray.origin, Ray.direction,
    Vec3.dot, ratSqrt_one]

theorem sphereA_valid_100 : Sphere.validHit sphereA rayAxis 0 100 := by
  rw [Sphere.validHit, sphereA_discr, sphereA_rootT]
  norm_num

theorem sphereB_valid_100 : Sphere.validHit sphereB rayAxis 0 100 := by
  rw [Sphere.validHit, sphereB_discr, sphereB_rootT]
  norm_num

theorem sphereB_valid_2 : Sphere.validHit sphereB rayAxis 0 2 := by
  rw [Sphere.validHit, sphereB_discr, sphereB_rootT]
  norm_num

theorem sphereA_invalid_1 : ¬ Sphere.validHit sphereA rayAxis 0 1 := by
  rw [Sphere.validHit, sphereA_discr, sphereA_rootT]
  norm_num

/-- C2.  `World::hit` resolves the globally nearest hit: it returns `none`
exactly when no sphere's accepted root lies in `(t_min, t_max)`, and any
hit it returns is the canonical hit of some member sphere whose root is a
minimum over every sphere valid in the range — the shrinking
`closest_so_far` bound makes the last pushed hit the nearest.  On the
concrete overlapping pair, the farther sphere inserted first
(`[sphereA, sphereB]`) and second (`[sphereB, sphereA]`) both resolve to
`sphereB`'s hit at `t = 1`. -/
theorem world_hit_nearest :
    (∀ (w : World) (r : Ray) (t_min t_max : ℚ),
        (World.hit w r t_min t_max = none ↔
          ∀ s ∈ w.objects, ¬ Sphere.validHit s r t_min t_max) ∧
          ∀ h, World.hit w r t_min t_max = some h →
            (∃ s ∈ w.objects,
                Sphere.validHit s r t_min t_max ∧ h = Sphere.mkHit s r) ∧
              ∀ s ∈ w.objects, Sphere.validHit s r t_min t_max →
                h.t ≤ Sphere.rootT s r) ∧
      World.hit ⟨[sphereA, sphereB]⟩ rayAxis 0 100 =
          some (Sphere.mkHit sphereB rayAxis) ∧
        World.hit ⟨[sphereB, sphereA]⟩ rayAxis 0 100 =
          some (Sphere.mkHit sphereB rayAxis) ∧
        (Sphere.mkHit sphereB rayAxis).t = 1 := by
  have hgen :
      ∀ (w : World) (r : Ray) (t_min t_max : ℚ),
        (World.hit w r t_min t_max = none ↔
          ∀ s ∈ w.objects, ¬ Sphere.validHit s r t_min t_max) ∧
          ∀ h, World.hit w r t_min t_max = some h →
            (∃ s ∈ w.objects,
                Sphere.validHit s r t_min t_max ∧ h = Sphere.mkHit s r) ∧
              ∀ s ∈ w.objects, Sphere.validHit s r t_min t_max →
                h.t ≤ Sphere.rootT s r := by
    intro w r t_min t_max
    constructor
    · constructor
      · intro hnone s hsmem hv
        obtain ⟨s0, -, -, hlast, -, -⟩ :=
          foldl_step_found r t_min w.objects [] t_max ⟨s, hsmem, hv⟩
        rw [World.hit] at hnone
        rw [hnone] at hlast
        exact Option.noConfusion hlast
      · intro hall
        rw [World.hit, foldl_step_no_hit r t_min w.objects ([], t_max) hall]
        rfl
    · intro h hsome
      by_cases hex : ∃ s ∈ w.objects, Sphere.validHit s r t_min t_max
      · obtain ⟨s0, hs0mem, hs0v, hlast, -, hmin⟩ :=
          foldl_step_found r t_min w.objects [] t_max hex
        rw [World.hit] at hsome
        rw [hsome] at hlast
        have heq := Option.some.inj hlast
        subst heq
        refine ⟨⟨s0, hs0mem, hs0v, rfl⟩, ?_⟩
        intro s hsmem hv
        rw [Sphere.mkHit_t]
        exact hmin s hsmem hv
      · push_neg at hex
        rw [World.hit, foldl_step_no_hit r t_min w.objects ([], t_max) hex]
          at hsome
        exact Option.noConfusion hsome
  refine ⟨hgen, ?_, ?_, ?_⟩
  · have hstep1 : World.step rayAxis 0 ([], 100) sphereA =
        ([Sphere.mkHit sphereA rayAxis], Sphere.rootT sphereA rayAxis) := by
      unfold World.step
      rw [Sphere.hit_eq, if_pos sphereA_valid_100]
      rfl
    have hstep2 :
        World.step rayAxis 0 ([Sphere.mkHit sphereA rayAxis], 2) sphereB =
          ([Sphere.mkHit sphereA rayAxis, Sphere.mkHit sphereB rayAxis],
            Sphere.rootT sphereB rayAxis) := by
      unfold World.step
      rw [Sphere.hit_eq, if_pos sphereB_valid_2]
      rfl
    rw [World.hit]
    simp only [List.foldl_cons, List.foldl_nil]
    rw [hstep1, sphereA_rootT, hstep2]
    rw [show [Sphere.mkHit sphereA rayAxis, Sphere.mkHit sphereB rayAxis] =
      [Sphere.mkHit sphereA rayAxis] ++ [Sphere.mkHit sphereB rayAxis]
      from rfl]
    exact List.getLast?_concat _
  · have hstep1 : World.step rayAxis 0 ([], 100) sphereB =
        ([Sphere.mkHit sphereB rayAxis], Sphere.rootT sphereB rayAxis) := by
      unfold World.step
      rw [Sphere.hit_eq, if_pos sphereB_valid_100]
      rfl
    have hstep2 :
        World.step rayAxis 0 ([Sphere.mkHit sphereB rayAxis], 1) sphereA =
          ([Sphere.mkHit sphereB rayAxis], 1) := by
      unfold World.step
      rw [Sphere.hit_eq, if_neg sphereA_invalid_1]
    rw [World.hit]
    simp only [List.foldl_cons, List.foldl_nil]
    rw [hstep1, sphereB_rootT, hstep2]
    rfl
  · rw [Sphere.mkHit_t, sphereB_rootT]

theorem ratSqrt_25 : ratSqrt 25 = 5 := by
  have h1 : Nat.sqrt 25 = 5 := by
    rw [show (25 : ℕ) = 5 * 5 from rfl]
    exact Nat.sqrt_eq 5
  rw [ratSqrt, show (25 : ℚ).num = 25 from rfl, show (25 : ℚ).den = 1 from rfl]
  rw [show Int.sqrt 25 = ((Nat.sqrt 25 : ℕ) : ℤ) from rfl, h1, Nat.sqrt_one]
  norm_num

/-- C6.  One unfolding of the radiance estimator: `color` asks the world
for the nearest hit in `[0.001, f32::MAX)`; with no hit it returns the
background blend `(1−t)·white + t·(0.5, 0.7, 1.0)` at
`t = 0.5·(unit(dir).y + 1)` (written out componentwise); on a hit it
returns `attenuation ⊙ color(scattered, depth+1)` when `depth < 50` and
the scatter continues, and black otherwise.  On the empty scene and the
ray toward `(0,3,4)` the estimator evaluates to the exact gradient value
`(3/5, 19/25, 1)`. -/
theorem color_radiance_equation :
    (∀ (w : World) (σ : ℕ → ℚ) (fuel : ℕ) (r : Ray) (depth : ℤ) (k : ℕ),
        color w σ fuel r depth k =
          match World.hit w r (1 / 1000) f32MAX with
          | none =>
            some
              (Vec3.mk (1 - ((Vec3.unit_vector r.direction).y + 1) / 4)
                (1 - 3 * ((Vec3.unit_vector r.direction).y + 1) / 20) 1)
          | some h =>
            match Material.scatter h.material r h σ k fuel with
            | none => none
            | some (sc, k') =>
              if depth < 50 ∧ sc.reflected = true then
                Option.map (fun c => sc.attenuation * c)
                  (color w σ fuel sc.scattered (depth + 1) k')
              else some (Vec3.mk 0 0 0)) ∧
      color ⟨[]⟩ (fun _ => 0) 0 (Ray.mk (Vec3.mk 0 0 0) (Vec3.mk 0 3 4)) 0 0 =
        some (Vec3.mk (3 / 5) (19 / 25) 1) := by
  constructor
  · intro w σ fuel r depth k
    conv_lhs => rw [color]
    cases hW : World.hit w r (1 / 1000) f32MAX with
    | none =>
      show some _ = some _
      refine congrArg some ?_
      ext <;>
        simp only [Vec3.add_x, Vec3.add_y, Vec3.add_z, Vec3.smul_x,
          Vec3.smul_y, Vec3.smul_z] <;>
        ring
    | some h => rfl
  · have huv :
        Vec3.unit_vector (Vec3.mk (0 : ℚ) 3 4) = Vec3.mk 0 (3 / 5) (4 / 5) := by
      unfold Vec3.unit_vector Vec3.length
      rw [show (0 : ℚ) * 0 + 3 * 3 + 4 * 4 = 25 by norm_num, ratSqrt_25]
      ext <;> norm_num
    conv_lhs => rw [color]
    show some _ = some _
    refine congrArg some ?_
    rw [Ray.direction, show (Ray.mk (Vec3.mk (0 : ℚ) 0 0) (Vec3.mk 0 3 4)).b =
      Vec3.mk (0 : ℚ) 3 4 from rfl, huv]
    ext <;>
      simp only [Vec3.add_x, Vec3.add_y, Vec3.add_z, Vec3.smul_x, Vec3.smul_y,
        Vec3.smul_z] <;>
      norm_num
